import Mathlib

/-!
A shallow embedding of the `SequenceAnalyzer` pattern-recognition engine
(`src/echo-chamber/src/Logger.js`) and proofs about its behaviour.

JavaScript numbers are modelled as exact rationals (`ℚ`); the engine's
arithmetic (differences, ratios, tolerance comparisons, `Math.round`-based
4-decimal rounding) is translated operation by operation.  JavaScript values
that can reach `analyze` before validation are modelled by `JSVal` / `JSInput`.
The engine's mutable fields (`history`, `performanceMetrics`, `analysisCache`)
become an explicit `EngineState` threaded through `analyze`.  `performance.now`
timing is modelled by passing the measured duration of a call as an explicit
parameter `t`; it only flows into the `analysisTime` result field and the
running-average metric, exactly as in the source.
-/

/-- A JavaScript value appearing as an element of an input array:
a finite number, `NaN`, `±Infinity`, a string, or anything else
(all non-numbers behave identically in `validateSequence`). -/
inductive JSVal where
  | num (q : ℚ)
  | nan
  | infinity
  | negInfinity
  | str (s : String)
  | other
deriving DecidableEq, Repr

/-- A JavaScript value passed to `analyze`: an array of values, or a
non-array value (`validateSequence`'s `Array.isArray` guard). -/
inductive JSInput where
  | arr (l : List JSVal)
  | notArray
deriving DecidableEq, Repr

/-- `typeof num === 'number' && !isNaN(num) && isFinite(num)` from
`validateSequence`. -/
def isFiniteNumber : JSVal → Bool
  | JSVal.num _ => true
  | _ => false

/-- The numeric contents of an input array (total on all inputs; on inputs
that passed validation every element is a `num`, so this is exactly the
sequence the detectors receive). -/
def inputNums : JSInput → List ℚ
  | JSInput.arr l => l.filterMap (fun v => match v with | JSVal.num q => some q | _ => none)
  | JSInput.notArray => []

/-- The result object a detection strategy returns on a match (the spread
`...result` part of a successful `AnalysisResult`), or the `unknown`
fallback object.  Fields a given strategy does not set are `none`
(JavaScript `undefined`). -/
structure MatchResult where
  pattern : String
  confidence : ℕ
  commonDifference : Option ℚ := none
  commonRatio : Option ℚ := none
  degree : Option ℕ := none
  constantDifference : Option ℚ := none
  nextNumbers : List (Option ℚ)
  formula : String
  explanation : Option String := none
deriving DecidableEq, Repr

/-- An object returned by `analyze`.  Optional fields model JavaScript
properties that are absent (`undefined`) on some results: a failed
validation produces only `success`, `error` and `sequence`. -/
structure AnalysisResult where
  success : Bool
  sequence : JSInput
  error : Option String := none
  sequenceLength : Option ℕ := none
  pattern : Option String := none
  confidence : Option ℕ := none
  commonDifference : Option ℚ := none
  commonRatio : Option ℚ := none
  degree : Option ℕ := none
  constantDifference : Option ℚ := none
  nextNumbers : Option (List (Option ℚ)) := none
  formula : Option String := none
  explanation : Option String := none
  analysisTime : Option ℚ := none
deriving DecidableEq, Repr

/-- The engine's mutable state: `this.history`, `this.performanceMetrics`
and `this.analysisCache`.  The cache is an insertion-ordered association
list keyed by the raw input (`JSON.stringify` keying: equal inputs give
equal keys, and the engine only ever inserts a key that is absent, so
`Map` semantics coincide with first-match lookup). -/
structure EngineState where
  history : List AnalysisResult
  totalAnalyses : ℕ
  averageAnalysisTime : ℚ
  cacheHits : ℕ
  cache : List (JSInput × AnalysisResult)
deriving DecidableEq, Repr

namespace SequenceAnalyzer

/-- The state built by the constructor. -/
def initState : EngineState :=
  { history := [], totalAnalyses := 0, averageAnalysisTime := 0,
    cacheHits := 0, cache := [] }

/-- `this.analysisCache.get(key)` / `has(key)` combined. -/
def cacheLookup (k : JSInput) : List (JSInput × AnalysisResult) → Option AnalysisResult
  | [] => none
  | (k', r) :: rest => if k = k' then some r else cacheLookup k rest

/-- `calculateDifferences`: consecutive differences `s[i] - s[i-1]`. -/
def calculateDifferences (seq : List ℚ) : List ℚ :=
  List.zipWith (fun a b => a - b) seq.tail seq

/-- `validateSequence`, returning `some errorMessage` on failure and `none`
when valid.  Checks run in source order: array, length, element kinds. -/
def validateSequence : JSInput → Option String
  | JSInput.notArray => some "The echo is not a valid sequence array."
  | JSInput.arr l =>
    if l.length < 2 then
      some "The echo is too faint - need at least 2 numbers."
    else if ¬ (l.all isFiniteNumber) then
      some "The echo is distorted - all elements must be valid numbers."
    else
      none

/-- The loop of `predictArithmetic`: `last += difference; push(last)`. -/
def predictArithLoop (last difference : ℚ) : ℕ → List ℚ
  | 0 => []
  | n + 1 => (last + difference) :: predictArithLoop (last + difference) difference n

/-- `predictArithmetic(sequence, count)`. -/
def predictArithmetic (seq : List ℚ) (count : ℕ) : List ℚ :=
  predictArithLoop (seq.getLastD 0) ((calculateDifferences seq).headD 0) count

/-- `Math.round(x * 10000) / 10000` (JavaScript `Math.round` is
`⌊x + 1/2⌋`, rounding half toward `+∞`). -/
def round4 (q : ℚ) : ℚ := ((⌊q * 10000 + 1 / 2⌋ : ℤ) : ℚ) / 10000

/-- The loop of `predictGeometric`: the accumulator multiplies on
unrounded, only the pushed value is rounded. -/
def predictGeomLoop (last ratio : ℚ) : ℕ → List ℚ
  | 0 => []
  | n + 1 => round4 (last * ratio) :: predictGeomLoop (last * ratio) ratio n

/-- `predictGeometric(sequence, count)`: the ratio is recomputed from the
last two elements. -/
def predictGeometric (seq : List ℚ) (count : ℕ) : List ℚ :=
  predictGeomLoop (seq.getD (seq.length - 1) 0)
    (seq.getD (seq.length - 1) 0 / seq.getD (seq.length - 2) 0) count

/-- The loop of `predictFibonacci`. -/
def predictFibLoop (a b : ℚ) : ℕ → List ℚ
  | 0 => []
  | n + 1 => (a + b) :: predictFibLoop b (a + b) n

/-- `predictFibonacci(sequence, count)`, seeded from the last two
elements. -/
def predictFibonacci (seq : List ℚ) (count : ℕ) : List ℚ :=
  predictFibLoop (seq.getD (seq.length - 2) 0) (seq.getD (seq.length - 1) 0) count

/-- `detectArithmetic`.  When called from `analyze` the sequence has
length ≥ 2, so `differences` is nonempty and `headD` is `differences[0]`. -/
def detectArithmetic (seq : List ℚ) : Option MatchResult :=
  let differences := calculateDifferences seq
  if differences.all (fun d => decide (d = differences.headD 0)) then
    some { pattern := "arithmetic", confidence := 100,
           commonDifference := some (differences.headD 0),
           nextNumbers := (predictArithmetic seq 5).map some,
           formula := "a_n = a_1 + (n-1)d",
           explanation := some "This is an arithmetic progression with constant difference" }
  else
    none

/-- `detectGeometric`: zero-element guard, then ratios within `1e-4` of
the first ratio. -/
def detectGeometric (seq : List ℚ) : Option MatchResult :=
  if seq.any (fun n => decide (n = 0)) then
    none
  else
    let ratios := List.zipWith (fun a b => a / b) seq.tail seq
    let firstRatio := ratios.headD 0
    if ratios.all (fun r => decide (|r - firstRatio| < 1 / 10000)) then
      some { pattern := "geometric", confidence := 100,
             commonRatio := some firstRatio,
             nextNumbers := (predictGeometric seq 5).map some,
             formula := "a_n = a_1 * r^(n-1)",
             explanation := some "This is a geometric progression with constant ratio" }
    else
      none

/-- The counting loop of `detectFibonacci`, carrying the previous two
elements `a`, `b`: consecutive matches of
`|s[i] - (s[i-1] + s[i-2])| < 1e-4`, stopping at the first failure (the
source's `break`). -/
def fibCountAux : ℚ → ℚ → List ℚ → ℕ
  | _, _, [] => 0
  | a, b, c :: rest =>
    if |c - (b + a)| < 1 / 10000 then 1 + fibCountAux b c rest else 0

/-- The `matchCount` computed by `detectFibonacci`'s loop starting at
`i = 2`. -/
def fibCount : List ℚ → ℕ
  | a :: b :: rest => fibCountAux a b rest
  | _ => 0

/-- `detectFibonacci`: length ≥ 3 and `matchCount >= sequence.length - 2`. -/
def detectFibonacci (seq : List ℚ) : Option MatchResult :=
  if seq.length < 3 then
    none
  else if seq.length - 2 ≤ fibCount seq then
    some { pattern := "fibonacci", confidence := 100,
           nextNumbers := (predictFibonacci seq 5).map some,
           formula := "a_n = a_(n-1) + a_(n-2)",
           explanation := some "This is a Fibonacci-like sequence where each term is the sum of the previous two" }
  else
    none

/-- The difference table built at the start of `predictPolynomial`:
`diffTable = [sequence]`, then up to `n` rounds of appending the
differences of the last row, stopping early if a round is empty. -/
def buildRows : List ℚ → ℕ → List (List ℚ)
  | row, 0 => [row]
  | row, n + 1 =>
    let d := calculateDifferences row
    if d.length = 0 then [row] else row :: buildRows d n

/-- Append one value to row `i` of the table (`diffTable[i].push(x)`).
Out-of-range `i` is a no-op; in the engine's calls the touched rows always
exist. -/
def pushAt (table : List (List ℚ)) (i : ℕ) (x : ℚ) : List (List ℚ) :=
  table.set i (table.getD i [] ++ [x])

/-- The upward propagation loop of `predictPolynomial`
(`for i = level-1 downto 0: diffTable[i].push(lastOf i + lastOf (i+1))`),
here processing indices `i, i-1, …, 0`. -/
def propUp : List (List ℚ) → ℕ → List (List ℚ)
  | table, 0 =>
    pushAt table 0 ((table.getD 0 []).getLastD 0 + (table.getD 1 []).getLastD 0)
  | table, j + 1 =>
    propUp (pushAt table (j + 1)
      ((table.getD (j + 1) []).getLastD 0 + (table.getD (j + 2) []).getLastD 0)) j

/-- One iteration of the prediction loop of `predictPolynomial`: extend
`diffTable[level]` (repeating its last value when nonempty, else pushing
the constant difference), then propagate sums upward. -/
def extendStep (level : ℕ) (constantDiff : ℚ) (table : List (List ℚ)) : List (List ℚ) :=
  let rowL := table.getD level []
  let t1 :=
    if 0 < rowL.length then pushAt table level (rowL.getLastD 0)
    else pushAt table level constantDiff
  match level with
  | 0 => t1
  | j + 1 => propUp t1 j

/-- The prediction loop of `predictPolynomial`, emitting the new last
value of row 0 after each extension. -/
def polyPredLoop (level : ℕ) (constantDiff : ℚ) : List (List ℚ) → ℕ → List ℚ
  | _, 0 => []
  | table, p + 1 =>
    let t := extendStep level constantDiff table
    (t.getD 0 []).getLastD 0 :: polyPredLoop level constantDiff t p

/-- `predictPolynomial(sequence, level, constantDiff, count)`: the table
has rows `0 … level+1` (the `for (i = 0; i <= level; i++)` build loop
pushes `level+1` difference rows for the engine's inputs). -/
def predictPolynomial (seq : List ℚ) (level : ℕ) (constantDiff : ℚ) (count : ℕ) : List ℚ :=
  polyPredLoop level constantDiff (buildRows seq (level + 1)) count

/-- The `while (level < maxLevels)` loop of `detectPolynomial`, with
`fuel = maxLevels - level` remaining iterations. -/
def detectPolyLoop (seq : List ℚ) : List ℚ → ℕ → ℕ → Option MatchResult
  | _, _, 0 => none
  | differences, level, fuel + 1 =>
    let nextDiffs := calculateDifferences differences
    if nextDiffs.length = 0 then
      none
    else if nextDiffs.all (fun d => decide (d = nextDiffs.headD 0)) then
      some { pattern := "polynomial", confidence := 95,
             degree := some (level + 1),
             constantDifference := some (nextDiffs.headD 0),
             nextNumbers := (predictPolynomial seq level (nextDiffs.headD 0) 5).map some,
             formula := "Polynomial of degree " ++ toString (level + 1),
             explanation := some ("This is a polynomial sequence of degree " ++ toString (level + 1)) }
    else
      detectPolyLoop seq nextDiffs (level + 1) fuel

/-- `detectPolynomial`: successive differences up to `maxLevels = 5`. -/
def detectPolynomial (seq : List ℚ) : Option MatchResult :=
  detectPolyLoop seq seq 0 5

/-- The strategy chain of `analyze`: arithmetic → geometric → fibonacci →
polynomial, falling back to the `unknown` result object. -/
def detectChain (seq : List ℚ) : MatchResult :=
  match detectArithmetic seq with
  | some m => m
  | none =>
  match detectGeometric seq with
  | some m => m
  | none =>
  match detectFibonacci seq with
  | some m => m
  | none =>
  match detectPolynomial seq with
  | some m => m
  | none =>
    { pattern := "unknown", confidence := 0, nextNumbers := [none],
      formula := "Pattern not recognized" }

/-- The successful `analysisResult` object assembled by `analyze` for a
validated input: `success`, the raw sequence, its length, the spread
detection result, the measured duration and (abstracted away) timestamp. -/
def freshResult (inp : JSInput) (t : ℚ) : AnalysisResult :=
  let m := detectChain (inputNums inp)
  { success := true, sequence := inp,
    sequenceLength := some (inputNums inp).length,
    pattern := some m.pattern, confidence := some m.confidence,
    commonDifference := m.commonDifference, commonRatio := m.commonRatio,
    degree := m.degree, constantDifference := m.constantDifference,
    nextNumbers := some m.nextNumbers, formula := some m.formula,
    explanation := m.explanation, analysisTime := some t }

/-- `updateMetrics(analysisTime)`: increment `totalAnalyses` and fold the
duration into the running mean. -/
def updateMetrics (t : ℚ) (s : EngineState) : EngineState :=
  { s with totalAnalyses := s.totalAnalyses + 1,
           averageAnalysisTime :=
             (s.averageAnalysisTime * (s.totalAnalyses : ℚ) + t) / ((s.totalAnalyses : ℚ) + 1) }

/-- `analyze(sequence)`, with the call's measured duration `t` passed
explicitly.  Cache hit → count the hit, return cached.  Invalid → plain
failure object, state untouched.  Otherwise detect, build the result,
update metrics, cache it, append to history. -/
def analyze (inp : JSInput) (t : ℚ) (s : EngineState) : AnalysisResult × EngineState :=
  match cacheLookup inp s.cache with
  | some r => (r, { s with cacheHits := s.cacheHits + 1 })
  | none =>
    match validateSequence inp with
    | some msg => ({ success := false, error := some msg, sequence := inp }, s)
    | none =>
      let r := freshResult inp t
      (r, { history := (updateMetrics t s).history ++ [r],
            totalAnalyses := (updateMetrics t s).totalAnalyses,
            averageAnalysisTime := (updateMetrics t s).averageAnalysisTime,
            cacheHits := (updateMetrics t s).cacheHits,
            cache := (updateMetrics t s).cache ++ [(inp, r)] })

/-- `getHistory()`: `[...this.history]` (an independent copy; in the pure
model, the list itself). -/
def getHistory (s : EngineState) : List AnalysisResult := s.history

/-- The snapshot returned by `getMetrics()`. -/
structure Metrics where
  totalAnalyses : ℕ
  averageAnalysisTime : ℚ
  cacheHits : ℕ
  cacheSize : ℕ
deriving DecidableEq, Repr

/-- `getMetrics()`. -/
def getMetrics (s : EngineState) : Metrics :=
  { totalAnalyses := s.totalAnalyses, averageAnalysisTime := s.averageAnalysisTime,
    cacheHits := s.cacheHits, cacheSize := s.cache.length }

/-- `clear()`: empty history, empty cache, zeroed metrics — the
constructor state. -/
def clear (_s : EngineState) : EngineState := initState

/-- `calculateSimilarity(analysis1, analysis2)`. -/
def calculateSimilarity (r1 r2 : AnalysisResult) : ℕ :=
  if r1.pattern ≠ r2.pattern then 0
  else
    let s1 : ℕ := 50 +
      (match r1.commonDifference, r2.commonDifference with
       | some d1, some d2 => if d1 = d2 then 25 else 0
       | _, _ => 0)
    let s2 : ℕ := s1 +
      (match r1.commonRatio, r2.commonRatio with
       | some q1, some q2 => if |q1 - q2| < 1 / 100 then 25 else 0
       | _, _ => 0)
    min s2 100

/-- The object returned by `comparSequences`. -/
structure ComparisonResult where
  sequence1 : AnalysisResult
  sequence2 : AnalysisResult
  samePattern : Bool
  similarity : ℕ
deriving DecidableEq, Repr

/-- `comparSequences(seq1, seq2)`: run both analyses through the full
`analyze` path (threading the state), then compare patterns and score
similarity.  `t1`, `t2` are the two calls' measured durations. -/
def comparSequences (a b : JSInput) (t1 t2 : ℚ) (s : EngineState) :
    ComparisonResult × EngineState :=
  let p1 := analyze a t1 s
  let p2 := analyze b t2 p1.2
  ({ sequence1 := p1.1, sequence2 := p2.1,
     samePattern := decide (p1.1.pattern = p2.1.pattern),
     similarity := calculateSimilarity p1.1 p2.1 }, p2.2)

end SequenceAnalyzer

namespace SequenceAnalyzer

/-- An input array holding exactly the given finite numbers. -/
def numsInput (l : List ℚ) : JSInput := JSInput.arr (l.map JSVal.num)

end SequenceAnalyzer

open SequenceAnalyzer

/-- Behaviour of `analyze` on a cache hit: count the hit, return the
cached result, leave everything else alone. -/
lemma analyze_hit_eq {s : EngineState} {inp : JSInput} {t : ℚ} {r : AnalysisResult}
    (h : cacheLookup inp s.cache = some r) :
    analyze inp t s = (r, { s with cacheHits := s.cacheHits + 1 }) := by
  simp only [analyze, h]

/-- Behaviour of `analyze` on a cache miss that fails validation: plain
failure object, state untouched. -/
lemma analyze_invalid_eq {s : EngineState} {inp : JSInput} {t : ℚ} {msg : String}
    (hc : cacheLookup inp s.cache = none) (hv : validateSequence inp = some msg) :
    analyze inp t s = ({ success := false, error := some msg, sequence := inp }, s) := by
  simp only [analyze, hc, hv]

/-- Behaviour of `analyze` on a cache miss that passes validation: fresh
result, metrics updated, cache and history appended. -/
lemma analyze_fresh_eq {s : EngineState} {inp : JSInput} {t : ℚ}
    (hc : cacheLookup inp s.cache = none) (hv : validateSequence inp = none) :
    analyze inp t s = (freshResult inp t,
      { history := s.history ++ [freshResult inp t],
        totalAnalyses := s.totalAnalyses + 1,
        averageAnalysisTime :=
          (s.averageAnalysisTime * (s.totalAnalyses : ℚ) + t) / ((s.totalAnalyses : ℚ) + 1),
        cacheHits := s.cacheHits,
        cache := s.cache ++ [(inp, freshResult inp t)] }) := by
  simp only [analyze, hc, hv, updateMetrics]

/-- Lookup distributes over appending cache entries. -/
lemma cacheLookup_append (k : JSInput) (c₁ c₂ : List (JSInput × AnalysisResult)) :
    cacheLookup k (c₁ ++ c₂) =
      match cacheLookup k c₁ with
      | some r => some r
      | none => cacheLookup k c₂ := by
  induction c₁ with
  | nil => simp [cacheLookup]
  | cons p rest ih =>
    cases p with
    | mk k' r => by_cases h : k = k' <;> simp [cacheLookup, h, ih]

/-- Lookup finds a key at the head of the cache. -/
lemma cacheLookup_head (k : JSInput) (r : AnalysisResult)
    (c : List (JSInput × AnalysisResult)) :
    cacheLookup k ((k, r) :: c) = some r := by
  simp [cacheLookup]

/-- Evaluation of the detection chain on the spec's polynomial example:
arithmetic, geometric and fibonacci all fail; the second differences are
constantly 2, so the polynomial strategy matches with degree 2, and the
buggy table extension yields predictions 34, 43, 52, 61, 70. -/
lemma detectChain_squares :
    detectChain [1, 4, 9, 16, 25] =
      { pattern := "polynomial", confidence := 95, degree := some 2,
        constantDifference := some 2,
        nextNumbers := [some 34, some 43, some 52, some 61, some 70],
        formula := "Polynomial of degree " ++ toString 2,
        explanation := some ("This is a polynomial sequence of degree " ++ toString 2) } := by
  norm_num [detectChain, detectArithmetic, detectGeometric, detectFibonacci,
    detectPolynomial, detectPolyLoop, calculateDifferences, fibCount, fibCountAux,
    predictArithmetic, predictArithLoop, predictGeometric, predictGeomLoop,
    predictFibonacci, predictFibLoop, predictPolynomial, polyPredLoop, buildRows,
    extendStep, propUp, pushAt, round4, abs_lt]

/-- C1: on the spec's own example `[1,4,9,16,25]` (second differences all
equal to 2, not matched by an earlier strategy) the engine does return
pattern `polynomial` with degree 2, but its first predicted value is 34,
not the Newton forward-difference value 36: `predictPolynomial` extends
`diffTable[level]` — the first-difference row `[3,5,7,9]`, repeating its
last value 9 — instead of the deepest constant row, so prediction does
not reproduce Newton forward-difference extrapolation. -/
theorem c1_polynomial_prediction_bug :
    (analyze (numsInput [1, 4, 9, 16, 25]) 0 initState).1.pattern = some "polynomial" ∧
    (analyze (numsInput [1, 4, 9, 16, 25]) 0 initState).1.degree = some 2 ∧
    (analyze (numsInput [1, 4, 9, 16, 25]) 0 initState).1.nextNumbers =
      some [some 34, some 43, some 52, some 61, some 70] ∧
    (analyze (numsInput [1, 4, 9, 16, 25]) 0 initState).1.nextNumbers ≠
      some [some 36, some 49, some 64, some 81, some 100] := by
  have e : (analyze (numsInput [1, 4, 9, 16, 25]) 0 initState).1 =
      freshResult (numsInput [1, 4, 9, 16, 25]) 0 := rfl
  have hn : inputNums (numsInput [1, 4, 9, 16, 25]) = [1, 4, 9, 16, 25] := rfl
  rw [e]
  simp only [freshResult, hn, detectChain_squares]
  simp

/-- C2 counterexample: after analyzing `[1,2]` on a fresh engine the key is
cached and `totalAnalyses = 1`; a second `analyze` of the same sequence is a
cache hit, yet `totalAnalyses` stays 1 — it is not incremented as the claim
asserts. -/
theorem c2_cacheHit_totalAnalyses_counterexample :
    (cacheLookup (numsInput [1, 2])
      ((analyze (numsInput [1, 2]) 0 initState).2).cache).isSome = true ∧
    ((analyze (numsInput [1, 2]) 0 initState).2).totalAnalyses = 1 ∧
    ((analyze (numsInput [1, 2]) 0
        ((analyze (numsInput [1, 2]) 0 initState).2)).2).totalAnalyses = 1 ∧
    ((analyze (numsInput [1, 2]) 0
        ((analyze (numsInput [1, 2]) 0 initState).2)).2).totalAnalyses ≠
      ((analyze (numsInput [1, 2]) 0 initState).2).totalAnalyses + 1 := by
  have hc : cacheLookup (numsInput [1, 2]) initState.cache = none := rfl
  have hv : validateSequence (numsInput [1, 2]) = none := rfl
  have e1 := analyze_fresh_eq (t := 0) hc hv
  have hhit : cacheLookup (numsInput [1, 2])
      ((analyze (numsInput [1, 2]) 0 initState).2).cache =
      some (freshResult (numsInput [1, 2]) 0) := by
    rw [e1]
    simp [initState, cacheLookup_head]
  have e2 := analyze_hit_eq (t := 0) hhit
  rw [e2, e1]
  simp [initState, cacheLookup_head]

/-- C2 (amended): on a cache hit, `analyze` increments `cacheHits` only —
`totalAnalyses`, the running average, history and cache are unchanged —
and returns the cached result unchanged. -/
theorem c2_cacheHit_behavior (s : EngineState) (inp : JSInput) (t : ℚ)
    (r : AnalysisResult) (h : cacheLookup inp s.cache = some r) :
    analyze inp t s = (r, { s with cacheHits := s.cacheHits + 1 }) := by
  simp only [analyze, h]

/-- C2 witness: the amended cache-hit behaviour at the concrete state
reached by analyzing `[1,2]` on a fresh engine. -/
theorem c2_cacheHit_behavior_witness :
    cacheLookup (numsInput [1, 2]) ((analyze (numsInput [1, 2]) 0 initState).2).cache =
      some (freshResult (numsInput [1, 2]) 0) ∧
    analyze (numsInput [1, 2]) 0 ((analyze (numsInput [1, 2]) 0 initState).2) =
      (freshResult (numsInput [1, 2]) 0,
       { (analyze (numsInput [1, 2]) 0 initState).2 with
         cacheHits := ((analyze (numsInput [1, 2]) 0 initState).2).cacheHits + 1 }) := by
  have hhit : cacheLookup (numsInput [1, 2])
      ((analyze (numsInput [1, 2]) 0 initState).2).cache =
      some (freshResult (numsInput [1, 2]) 0) := by
    rw [analyze_fresh_eq (t := 0)
      (show cacheLookup (numsInput [1, 2]) initState.cache = none from rfl)
      (show validateSequence (numsInput [1, 2]) = none from rfl)]
    simp [initState, cacheLookup_head]
  exact ⟨hhit, c2_cacheHit_behavior _ _ _ _ hhit⟩

/-- C3 counterexample: `analyze([5])` fails validation and returns
`success:false`, but `totalAnalyses` stays 0 and the running average is
untouched — the call is NOT counted toward metrics, contrary to the
claim. -/
theorem c3_invalid_metrics_counterexample :
    (analyze (numsInput [5]) 0 initState).1.success = false ∧
    ((analyze (numsInput [5]) 0 initState).2).totalAnalyses = 0 ∧
    ((analyze (numsInput [5]) 0 initState).2).totalAnalyses ≠
      initState.totalAnalyses + 1 ∧
    ((analyze (numsInput [5]) 0 initState).2).averageAnalysisTime =
      initState.averageAnalysisTime := by
  rw [analyze_invalid_eq (t := 0)
    (show cacheLookup (numsInput [5]) initState.cache = none from rfl)
    (show validateSequence (numsInput [5]) =
      some "The echo is too faint - need at least 2 numbers." from rfl)]
  simp [initState]

/-- C3 (amended): on a cache miss whose input fails validation, `analyze`
returns a `success:false` result carrying only the error message and the
raw sequence, and the engine state is entirely unchanged: nothing is
cached, nothing is appended to history, and the metrics — `totalAnalyses`
and the running average duration — are not touched. -/
theorem c3_invalid_input_behavior (s : EngineState) (inp : JSInput) (t : ℚ)
    (msg : String) (hc : cacheLookup inp s.cache = none)
    (hv : validateSequence inp = some msg) :
    analyze inp t s = ({ success := false, error := some msg, sequence := inp }, s) := by
  simp only [analyze, hc, hv]

/-- C3 witness: the amended invalid-input behaviour at `[5]` on a fresh
engine. -/
theorem c3_invalid_input_behavior_witness :
    cacheLookup (numsInput [5]) initState.cache = none ∧
    validateSequence (numsInput [5]) =
      some "The echo is too faint - need at least 2 numbers." ∧
    analyze (numsInput [5]) 0 initState =
      ({ success := false,
         error := some "The echo is too faint - need at least 2 numbers.",
         sequence := numsInput [5] }, initState) :=
  ⟨rfl, rfl, c3_invalid_input_behavior _ _ _ _ rfl rfl⟩

/-- C7: every input that fails validation is classified into exactly one
of the three failure kinds, in source order — not-an-array, too short
(length < 2), non-numeric element (any element that is not a finite
number: `NaN`, `±Infinity` or a non-number value) — and the kind is
surfaced through `analyze` as a `success:false` result carrying that
human-readable message.  `analyze` is a total function, so no exception
escapes the engine. -/
theorem c7_validation_classification (inp : JSInput) (s : EngineState) (t : ℚ)
    (msg : String) (hc : cacheLookup inp s.cache = none)
    (hv : validateSequence inp = some msg) :
    ((analyze inp t s).1.success = false ∧ (analyze inp t s).1.error = some msg) ∧
    (msg = "The echo is not a valid sequence array." ∨
     msg = "The echo is too faint - need at least 2 numbers." ∨
     msg = "The echo is distorted - all elements must be valid numbers.") ∧
    (msg = "The echo is not a valid sequence array." ↔ inp = JSInput.notArray) ∧
    (∀ l, inp = JSInput.arr l →
      (msg = "The echo is too faint - need at least 2 numbers." ↔ l.length < 2)) ∧
    (∀ l, inp = JSInput.arr l →
      (msg = "The echo is distorted - all elements must be valid numbers." ↔
        2 ≤ l.length ∧ ∃ v ∈ l, isFiniteNumber v = false)) := by
  rw [analyze_invalid_eq hc hv]
  refine ⟨⟨rfl, rfl⟩, ?_⟩
  cases inp with
  | notArray =>
    simp only [validateSequence, Option.some.injEq] at hv
    subst hv
    refine ⟨Or.inl rfl, by simp, ?_, ?_⟩ <;> intro l h <;> cases h
  | arr l =>
    simp only [validateSequence] at hv
    by_cases h2 : l.length < 2
    · rw [if_pos h2] at hv
      rw [Option.some.injEq] at hv
      subst hv
      refine ⟨Or.inr (Or.inl rfl), by simp, ?_, ?_⟩ <;>
        intro l' h' <;> injection h' with h' <;> subst h'
      · simp [h2]
      · constructor
        · intro h
          exact absurd h (by decide)
        · rintro ⟨hlen, -⟩
          omega
    · rw [if_neg h2] at hv
      by_cases hall : l.all isFiniteNumber
      · rw [if_neg (by simpa using hall)] at hv
        cases hv
      · rw [if_pos (by simpa using hall)] at hv
        rw [Option.some.injEq] at hv
        subst hv
        refine ⟨Or.inr (Or.inr rfl), by simp, ?_, ?_⟩ <;>
          intro l' h' <;> injection h' with h' <;> subst h'
        · constructor
          · intro h
            exact absurd h (by decide)
          · intro h
            exact absurd h h2
        · simp only [List.all_eq_true, not_forall] at hall
          constructor
          · intro _
            refine ⟨by omega, ?_⟩
            obtain ⟨v, hv', hnf⟩ := hall
            exact ⟨v, hv', by simpa using hnf⟩
          · intro _
            rfl

/-- C7 witness: the classification at the concrete non-numeric input
`[1, NaN]`. -/
theorem c7_validation_classification_witness :
    cacheLookup (JSInput.arr [JSVal.num 1, JSVal.nan]) initState.cache = none ∧
    validateSequence (JSInput.arr [JSVal.num 1, JSVal.nan]) =
      some "The echo is distorted - all elements must be valid numbers." ∧
    (((analyze (JSInput.arr [JSVal.num 1, JSVal.nan]) 0 initState).1.success = false ∧
      (analyze (JSInput.arr [JSVal.num 1, JSVal.nan]) 0 initState).1.error =
        some "The echo is distorted - all elements must be valid numbers.") ∧
     ("The echo is distorted - all elements must be valid numbers." =
        "The echo is not a valid sequence array." ∨
      "The echo is distorted - all elements must be valid numbers." =
        "The echo is too faint - need at least 2 numbers." ∨
      "The echo is distorted - all elements must be valid numbers." =
        "The echo is distorted - all elements must be valid numbers.") ∧
     ("The echo is distorted - all elements must be valid numbers." =
        "The echo is not a valid sequence array." ↔
        JSInput.arr [JSVal.num 1, JSVal.nan] = JSInput.notArray) ∧
     (∀ l, JSInput.arr [JSVal.num 1, JSVal.nan] = JSInput.arr l →
       ("The echo is distorted - all elements must be valid numbers." =
          "The echo is too faint - need at least 2 numbers." ↔ l.length < 2)) ∧
     (∀ l, JSInput.arr [JSVal.num 1, JSVal.nan] = JSInput.arr l →
       ("The echo is distorted - all elements must be valid numbers." =
          "The echo is distorted - all elements must be valid numbers." ↔
          2 ≤ l.length ∧ ∃ v ∈ l, isFiniteNumber v = false))) :=
  ⟨rfl, rfl, c7_validation_classification _ _ 0 _ rfl rfl⟩

/-- C10: when both inputs to the comparator fail validation (here: on a
cache miss for both), the two failure results carry no `pattern` field at
all (`none`, i.e. JavaScript `undefined`), so the comparison reports
`samePattern = true` and a similarity score of 50, even though neither
sequence was analyzed. -/
theorem c10_both_invalid_compare (s : EngineState) (a b : JSInput) (t1 t2 : ℚ)
    (m1 m2 : String)
    (ha : cacheLookup a s.cache = none) (hb : cacheLookup b s.cache = none)
    (hva : validateSequence a = some m1) (hvb : validateSequence b = some m2) :
    (comparSequences a b t1 t2 s).1.sequence1.pattern = none ∧
    (comparSequences a b t1 t2 s).1.sequence2.pattern = none ∧
    (comparSequences a b t1 t2 s).1.samePattern = true ∧
    (comparSequences a b t1 t2 s).1.similarity = 50 := by
  have e1 := analyze_invalid_eq (t := t1) ha hva
  have e2 := analyze_invalid_eq (t := t2) hb hvb
  unfold comparSequences
  rw [e1]
  simp only
  rw [e2]
  simp [calculateSimilarity]

/-- C10 witness: comparing the two too-short inputs `[5]` and `[7]` on a
fresh engine. -/
theorem c10_both_invalid_compare_witness :
    cacheLookup (numsInput [5]) initState.cache = none ∧
    cacheLookup (numsInput [7]) initState.cache = none ∧
    validateSequence (numsInput [5]) =
      some "The echo is too faint - need at least 2 numbers." ∧
    validateSequence (numsInput [7]) =
      some "The echo is too faint - need at least 2 numbers." ∧
    ((comparSequences (numsInput [5]) (numsInput [7]) 0 0 initState).1.sequence1.pattern = none ∧
     (comparSequences (numsInput [5]) (numsInput [7]) 0 0 initState).1.sequence2.pattern = none ∧
     (comparSequences (numsInput [5]) (numsInput [7]) 0 0 initState).1.samePattern = true ∧
     (comparSequences (numsInput [5]) (numsInput [7]) 0 0 initState).1.similarity = 50) :=
  ⟨rfl, rfl, rfl, rfl, c10_both_invalid_compare _ _ _ 0 0 _ _ rfl rfl rfl rfl⟩

namespace SequenceAnalyzer

/-- Extracting the numbers of an all-numeric input array gives back the
sequence. -/
lemma inputNums_numsInput (l : List ℚ) : inputNums (numsInput l) = l := by
  induction l with
  | nil => rfl
  | cons x xs ih =>
    simp only [inputNums, numsInput, List.map_cons, List.filterMap_cons] at ih ⊢
    exact congrArg (x :: ·) ih

/-- An all-numeric array of length ≥ 2 passes validation. -/
lemma validateSequence_numsInput {l : List ℚ} (h : 2 ≤ l.length) :
    validateSequence (numsInput l) = none := by
  simp only [validateSequence, numsInput, List.length_map]
  rw [if_neg (by omega), if_neg]
  simp [List.all_eq_true, isFiniteNumber]

/-- A difference list is one shorter than its sequence. -/
lemma calculateDifferences_length (seq : List ℚ) :
    (calculateDifferences seq).length = seq.length - 1 := by
  simp [calculateDifferences]

/-- The default-valued head of a nonempty constant list is that constant. -/
lemma headD_of_forall_eq {l : List ℚ} {d : ℚ} (hne : l ≠ [])
    (hd : ∀ x ∈ l, x = d) : l.headD 0 = d := by
  cases l with
  | nil => exact absurd rfl hne
  | cons x xs => exact hd x (List.mem_cons_self x xs)

/-- A sequence of length ≥ 2 has a nonempty difference list. -/
lemma calculateDifferences_ne_nil {seq : List ℚ} (hlen : 2 ≤ seq.length) :
    calculateDifferences seq ≠ [] := by
  have hl := calculateDifferences_length seq
  intro h
  rw [h] at hl
  simp at hl
  omega

/-- `detectArithmetic` on a sequence whose differences are constantly `d`. -/
lemma detectArithmetic_const {seq : List ℚ} {d : ℚ} (hlen : 2 ≤ seq.length)
    (hd : ∀ x ∈ calculateDifferences seq, x = d) :
    detectArithmetic seq = some
      { pattern := "arithmetic", confidence := 100,
        commonDifference := some d,
        nextNumbers := (predictArithmetic seq 5).map some,
        formula := "a_n = a_1 + (n-1)d",
        explanation := some "This is an arithmetic progression with constant difference" } := by
  have hhead : (calculateDifferences seq).headD 0 = d :=
    headD_of_forall_eq (calculateDifferences_ne_nil hlen) hd
  simp only [detectArithmetic, hhead]
  rw [if_pos]
  rw [List.all_eq_true]
  intro x hx
  simp [hd x hx]

/-- The chain returns the arithmetic match when that strategy fires. -/
lemma detectChain_of_arithmetic {seq : List ℚ} {m : MatchResult}
    (h : detectArithmetic seq = some m) : detectChain seq = m := by
  simp only [detectChain, h]

end SequenceAnalyzer

/-- C5: for every valid sequence (length ≥ 2, all elements finite
numbers) whose consecutive differences all equal `d`, `analyze` returns
pattern `arithmetic` with confidence 100 and `commonDifference = d`, and
the first predicted value is the last element plus `d`. -/
theorem c5_arithmetic_detection (s : EngineState) (seq : List ℚ) (d t : ℚ)
    (hlen : 2 ≤ seq.length)
    (hd : ∀ x ∈ calculateDifferences seq, x = d)
    (hc : cacheLookup (numsInput seq) s.cache = none) :
    (analyze (numsInput seq) t s).1.pattern = some "arithmetic" ∧
    (analyze (numsInput seq) t s).1.confidence = some 100 ∧
    (analyze (numsInput seq) t s).1.commonDifference = some d ∧
    (analyze (numsInput seq) t s).1.nextNumbers =
      some ((predictArithmetic seq 5).map some) ∧
    ((analyze (numsInput seq) t s).1.nextNumbers.getD []).headD none =
      some (seq.getLastD 0 + d) := by
  have hv := validateSequence_numsInput hlen
  rw [analyze_fresh_eq hc hv]
  have hchain := detectChain_of_arithmetic (detectArithmetic_const hlen hd)
  have hhead : (calculateDifferences seq).headD 0 = d :=
    headD_of_forall_eq (calculateDifferences_ne_nil hlen) hd
  simp only [freshResult, inputNums_numsInput, hchain]
  refine ⟨trivial, trivial, trivial, trivial, ?_⟩
  simp only [predictArithmetic, predictArithLoop, List.map_cons, List.headD_cons,
    Option.getD_some]
  simpa using hhead

/-- C5 witness: the spec's concrete arithmetic scenario `[3,6,9,12]`
with difference 3 on a fresh engine. -/
theorem c5_arithmetic_detection_witness :
    2 ≤ ([3, 6, 9, 12] : List ℚ).length ∧
    (∀ x ∈ calculateDifferences [3, 6, 9, 12], x = 3) ∧
    cacheLookup (numsInput [3, 6, 9, 12]) initState.cache = none ∧
    ((analyze (numsInput [3, 6, 9, 12]) 0 initState).1.pattern = some "arithmetic" ∧
     (analyze (numsInput [3, 6, 9, 12]) 0 initState).1.confidence = some 100 ∧
     (analyze (numsInput [3, 6, 9, 12]) 0 initState).1.commonDifference = some 3 ∧
     (analyze (numsInput [3, 6, 9, 12]) 0 initState).1.nextNumbers =
       some ((predictArithmetic [3, 6, 9, 12] 5).map some) ∧
     ((analyze (numsInput [3, 6, 9, 12]) 0 initState).1.nextNumbers.getD []).headD none =
       some (([3, 6, 9, 12] : List ℚ).getLastD 0 + 3)) := by
  have h1 : 2 ≤ ([3, 6, 9, 12] : List ℚ).length := by simp
  have h2 : ∀ x ∈ calculateDifferences [3, 6, 9, 12], x = (3 : ℚ) := by
    norm_num [calculateDifferences]
  exact ⟨h1, h2, rfl, c5_arithmetic_detection initState [3, 6, 9, 12] 3 0 h1 h2 rfl⟩

/-- C4 counterexample: `[2,4]` is a geometric sequence with ratio 2 and
no zero element, yet `analyze` classifies it as `arithmetic`, because the
arithmetic strategy runs first and any 2-element sequence trivially has
constant differences.  The claim as stated (every geometric sequence is
classified `geometric`) is false. -/
theorem c4_geometric_counterexample :
    ((2 : ℚ) ≠ 0 ∧ (4 : ℚ) ≠ 0 ∧
     (∀ x ∈ List.zipWith (fun a b : ℚ => a / b) ([2, 4] : List ℚ).tail [2, 4], x = 2)) ∧
    (analyze (numsInput [2, 4]) 0 initState).1.pattern = some "arithmetic" ∧
    (analyze (numsInput [2, 4]) 0 initState).1.pattern ≠ some "geometric" := by
  have hp : (analyze (numsInput [2, 4]) 0 initState).1.pattern = some "arithmetic" := by
    have h2 : ∀ x ∈ calculateDifferences [2, 4], x = (2 : ℚ) := by
      norm_num [calculateDifferences]
    have hchain := detectChain_of_arithmetic (detectArithmetic_const (by simp) h2)
    rw [analyze_fresh_eq (show cacheLookup (numsInput [2, 4]) initState.cache = none from rfl)
      (validateSequence_numsInput (l := [2, 4]) (by simp))]
    simp only [freshResult, inputNums_numsInput, hchain]
  refine ⟨⟨by norm_num, by norm_num, by norm_num⟩, hp, ?_⟩
  rw [hp]
  simp
namespace SequenceAnalyzer

lemma round4_close (x : ℚ) : |round4 x - x| < 1 / 10000 := by
  have h1 : ((⌊x * 10000 + 1 / 2⌋ : ℤ) : ℚ) ≤ x * 10000 + 1 / 2 := Int.floor_le _
  have h2 : x * 10000 + 1 / 2 - 1 < ((⌊x * 10000 + 1 / 2⌋ : ℤ) : ℚ) :=
    Int.sub_one_lt_floor _
  unfold round4
  rw [abs_lt]
  constructor <;> linarith

lemma detectArithmetic_none {seq : List ℚ}
    (hna : ¬ ∀ x ∈ calculateDifferences seq, x = (calculateDifferences seq).headD 0) :
    detectArithmetic seq = none := by
  simp only [detectArithmetic]
  rw [if_neg]
  simp only [List.all_eq_true, decide_eq_true_eq]
  exact hna

lemma getLastD_eq_getD (l : List ℚ) : l.getLastD 0 = l.getD (l.length - 1) 0 := by
  induction l with
  | nil => rfl
  | cons x xs ih =>
    cases xs with
    | nil => rfl
    | cons y ys =>
      simp only [List.getLastD_cons] at ih ⊢
      rw [ih]
      simp [List.getD_cons_succ]

lemma detectGeometric_const {seq : List ℚ} {r : ℚ} (hlen : 2 ≤ seq.length)
    (hz : ∀ x ∈ seq, x ≠ 0)
    (hr : ∀ x ∈ List.zipWith (fun a b => a / b) seq.tail seq, x = r) :
    detectGeometric seq = some
      { pattern := "geometric", confidence := 100,
        commonRatio := some r,
        nextNumbers := (predictGeometric seq 5).map some,
        formula := "a_n = a_1 * r^(n-1)",
        explanation := some "This is a geometric progression with constant ratio" } := by
  have hne : List.zipWith (fun a b : ℚ => a / b) seq.tail seq ≠ [] := by
    intro h
    have := congrArg List.length h
    simp at this
    omega
  have hhead : (List.zipWith (fun a b : ℚ => a / b) seq.tail seq).headD 0 = r :=
    headD_of_forall_eq hne hr
  have hguard : ¬ (seq.any (fun n => decide (n = 0)) = true) := by
    simp only [List.any_eq_true, decide_eq_true_eq, not_exists]
    intro x
    simp only [not_and]
    exact fun hmem hx => hz x hmem hx
  have hall : (List.zipWith (fun a b : ℚ => a / b) seq.tail seq).all
      (fun x => decide (|x - r| < 1 / 10000)) = true := by
    rw [List.all_eq_true]
    intro x hx
    rw [hr x hx]
    simp
  simp only [detectGeometric, hhead]
  rw [if_neg hguard, if_pos hall]

lemma detectChain_of_geometric {seq : List ℚ} {m : MatchResult}
    (ha : detectArithmetic seq = none) (h : detectGeometric seq = some m) :
    detectChain seq = m := by
  simp only [detectChain, ha, h]

/-- The last ratio the predictor recomputes equals the common ratio. -/
lemma predictGeometric_ratio {seq : List ℚ} {r : ℚ} (hlen : 2 ≤ seq.length)
    (hr : ∀ x ∈ List.zipWith (fun a b => a / b) seq.tail seq, x = r) :
    seq.getD (seq.length - 1) 0 / seq.getD (seq.length - 2) 0 = r := by
  have hidx : seq.length - 1 = seq.length - 2 + 1 := by omega
  rw [hidx]
  have hlt : seq.length - 2 < (List.zipWith (fun a b : ℚ => a / b) seq.tail seq).length := by
    simp [List.length_zipWith]
    omega
  have heq := hr _ (List.getElem_mem hlt)
  rw [List.getElem_zipWith, List.getElem_tail] at heq
  rw [List.getD_eq_getElem _ _ (by omega), List.getD_eq_getElem _ _ (by omega)]
  exact heq

end SequenceAnalyzer

open SequenceAnalyzer

/-- C4 (amended): for every exactly-geometric sequence with ratio `r`
(length ≥ 2, no zero elements, every consecutive ratio equal to `r`)
that is NOT matched by the earlier arithmetic strategy (its consecutive
differences are not all equal), `analyze` returns pattern `geometric`
with confidence 100 and `commonRatio = r` (the first ratio), and the
first predicted value — the 4-decimal rounding of the last element times
`r` — is within `1e-4` of the last element times `r`. -/
theorem c4_geometric_detection (s : EngineState) (seq : List ℚ) (r t : ℚ)
    (hlen : 2 ≤ seq.length)
    (hz : ∀ x ∈ seq, x ≠ 0)
    (hr : ∀ x ∈ List.zipWith (fun a b => a / b) seq.tail seq, x = r)
    (hna : ¬ ∀ x ∈ calculateDifferences seq, x = (calculateDifferences seq).headD 0)
    (hc : cacheLookup (numsInput seq) s.cache = none) :
    (analyze (numsInput seq) t s).1.pattern = some "geometric" ∧
    (analyze (numsInput seq) t s).1.confidence = some 100 ∧
    (analyze (numsInput seq) t s).1.commonRatio = some r ∧
    ((analyze (numsInput seq) t s).1.nextNumbers.getD []).headD none =
      some (round4 (seq.getLastD 0 * r)) ∧
    |round4 (seq.getLastD 0 * r) - seq.getLastD 0 * r| < 1 / 10000 := by
  have hv := validateSequence_numsInput hlen
  rw [analyze_fresh_eq hc hv]
  have hchain := detectChain_of_geometric (detectArithmetic_none hna)
    (detectGeometric_const hlen hz hr)
  simp only [freshResult, inputNums_numsInput, hchain]
  refine ⟨trivial, trivial, trivial, ?_, round4_close _⟩
  simp only [predictGeometric, predictGeomLoop, List.map_cons, List.headD_cons,
    Option.getD_some]
  rw [predictGeometric_ratio hlen hr, getLastD_eq_getD]

/-- C4 witness: the amended geometric behaviour at `[2,4,8]` (ratio 2) on
a fresh engine. -/
theorem c4_geometric_detection_witness :
    2 ≤ ([2, 4, 8] : List ℚ).length ∧
    (∀ x ∈ ([2, 4, 8] : List ℚ), x ≠ 0) ∧
    (∀ x ∈ List.zipWith (fun a b : ℚ => a / b) ([2, 4, 8] : List ℚ).tail [2, 4, 8], x = 2) ∧
    (¬ ∀ x ∈ calculateDifferences [2, 4, 8],
        x = (calculateDifferences [2, 4, 8]).headD 0) ∧
    cacheLookup (numsInput [2, 4, 8]) initState.cache = none ∧
    ((analyze (numsInput [2, 4, 8]) 0 initState).1.pattern = some "geometric" ∧
     (analyze (numsInput [2, 4, 8]) 0 initState).1.confidence = some 100 ∧
     (analyze (numsInput [2, 4, 8]) 0 initState).1.commonRatio = some 2 ∧
     ((analyze (numsInput [2, 4, 8]) 0 initState).1.nextNumbers.getD []).headD none =
       some (round4 (([2, 4, 8] : List ℚ).getLastD 0 * 2)) ∧
     |round4 (([2, 4, 8] : List ℚ).getLastD 0 * 2) -
        ([2, 4, 8] : List ℚ).getLastD 0 * 2| < 1 / 10000) := by
  have h1 : 2 ≤ ([2, 4, 8] : List ℚ).length := by simp
  have h2 : ∀ x ∈ ([2, 4, 8] : List ℚ), x ≠ 0 := by norm_num
  have h3 : ∀ x ∈ List.zipWith (fun a b : ℚ => a / b) ([2, 4, 8] : List ℚ).tail [2, 4, 8],
      x = 2 := by norm_num
  have h4 : ¬ ∀ x ∈ calculateDifferences [2, 4, 8],
      x = (calculateDifferences [2, 4, 8]).headD 0 := by
    intro h
    have := h 4 (by norm_num [calculateDifferences])
    rw [show (calculateDifferences [2, 4, 8]).headD 0 = 2 by norm_num [calculateDifferences]]
      at this
    norm_num at this
  exact ⟨h1, h2, h3, h4, rfl,
    c4_geometric_detection initState [2, 4, 8] 2 0 h1 h2 h3 h4 rfl⟩

namespace SequenceAnalyzer

/-- A matched arithmetic result is labelled `arithmetic`. -/
lemma detectArithmetic_pattern {seq : List ℚ} {m : MatchResult}
    (h : detectArithmetic seq = some m) : m.pattern = "arithmetic" := by
  simp only [detectArithmetic] at h
  split at h
  · cases h; rfl
  · cases h

/-- A matched geometric result is labelled `geometric`. -/
lemma detectGeometric_pattern {seq : List ℚ} {m : MatchResult}
    (h : detectGeometric seq = some m) : m.pattern = "geometric" := by
  simp only [detectGeometric] at h
  split at h
  · cases h
  · split at h
    · cases h; rfl
    · cases h

/-- A matched fibonacci result is labelled `fibonacci`. -/
lemma detectFibonacci_pattern {seq : List ℚ} {m : MatchResult}
    (h : detectFibonacci seq = some m) : m.pattern = "fibonacci" := by
  simp only [detectFibonacci] at h
  split at h
  · cases h
  · split at h
    · cases h; rfl
    · cases h

/-- A matched polynomial result is labelled `polynomial`. -/
lemma detectPolyLoop_pattern {seq : List ℚ} :
    ∀ (fuel : ℕ) (ds : List ℚ) (level : ℕ) (m : MatchResult),
      detectPolyLoop seq ds level fuel = some m → m.pattern = "polynomial" := by
  intro fuel
  induction fuel with
  | zero => intro ds level m h; cases h
  | succ n ih =>
    intro ds level m h
    simp only [detectPolyLoop] at h
    split at h
    · cases h
    · split at h
      · cases h; rfl
      · exact ih _ _ _ h

/-- With at most 5 difference levels, a difference row of length between
2 and `fuel + 1` always stabilises: either some row is constant, or the
rows shrink to a single element, which is vacuously constant. -/
lemma detectPolyLoop_isSome {seq : List ℚ} :
    ∀ (fuel : ℕ) (ds : List ℚ) (level : ℕ),
      2 ≤ ds.length → ds.length ≤ fuel + 1 →
      detectPolyLoop seq ds level fuel ≠ none := by
  intro fuel
  induction fuel with
  | zero => intro ds level h2 h1; omega
  | succ n ih =>
    intro ds level h2 hle
    simp only [detectPolyLoop]
    have hlen : (calculateDifferences ds).length = ds.length - 1 :=
      calculateDifferences_length ds
    split
    · omega
    · split
      · simp
      · rename_i hlen0 hall
        refine ih _ (level + 1) ?_ (by omega)
        cases hd : calculateDifferences ds with
        | nil => rw [hd] at hlen0; simp at hlen0
        | cons x xs =>
          cases xs with
          | nil =>
            exfalso
            rw [hd] at hall
            simp at hall
          | cons y ys => simp
  
/-- `analyze` never returns pattern `unknown` for a valid sequence of
length at most 6: the strategy chain always matches. -/
lemma detectChain_pattern_ne_unknown {seq : List ℚ}
    (hlen : 2 ≤ seq.length) (hlen6 : seq.length ≤ 6) :
    (detectChain seq).pattern ≠ "unknown" := by
  unfold detectChain
  cases ha : detectArithmetic seq with
  | some m => rw [detectArithmetic_pattern ha]; decide
  | none =>
  cases hg : detectGeometric seq with
  | some m => rw [detectGeometric_pattern hg]; decide
  | none =>
  cases hf : detectFibonacci seq with
  | some m => rw [detectFibonacci_pattern hf]; decide
  | none =>
  cases hp : detectPolynomial seq with
  | some m => rw [detectPolyLoop_pattern _ _ _ _ hp]; decide
  | none =>
    exfalso
    exact detectPolyLoop_isSome 5 seq 0 hlen (by omega) hp

end SequenceAnalyzer

/-- C9: for every valid sequence of length between 2 and 6, `analyze`
never returns pattern `unknown`: if arithmetic, geometric and fibonacci
all fail, the successive difference rows shrink by one element per level,
so within the 5 allowed levels some row has a single element, which is
vacuously all-equal, and the polynomial strategy declares a match. -/
theorem c9_no_unknown_small (s : EngineState) (seq : List ℚ) (t : ℚ)
    (hlen : 2 ≤ seq.length) (hlen6 : seq.length ≤ 6)
    (hc : cacheLookup (numsInput seq) s.cache = none) :
    (analyze (numsInput seq) t s).1.pattern ≠ some "unknown" := by
  rw [analyze_fresh_eq hc (validateSequence_numsInput hlen)]
  simp only [freshResult, inputNums_numsInput]
  intro h
  rw [Option.some.injEq] at h
  exact detectChain_pattern_ne_unknown hlen hlen6 h

/-- C9 witness: the irregular valid sequence `[1,2,4,7,11,17]` of length
6 on a fresh engine is still not `unknown`. -/
theorem c9_no_unknown_small_witness :
    2 ≤ ([1, 2, 4, 7, 11, 17] : List ℚ).length ∧
    ([1, 2, 4, 7, 11, 17] : List ℚ).length ≤ 6 ∧
    cacheLookup (numsInput [1, 2, 4, 7, 11, 17]) initState.cache = none ∧
    (analyze (numsInput [1, 2, 4, 7, 11, 17]) 0 initState).1.pattern ≠ some "unknown" :=
  ⟨by simp, by simp, rfl,
   c9_no_unknown_small initState [1, 2, 4, 7, 11, 17] 0 (by simp) (by simp) rfl⟩

namespace SequenceAnalyzer

/-- Unfolding of `comparSequences` as a record of the two threaded
`analyze` calls. -/
lemma comparSequences_eq (a b : JSInput) (t1 t2 : ℚ) (s : EngineState) :
    comparSequences a b t1 t2 s =
      ({ sequence1 := (analyze a t1 s).1,
         sequence2 := (analyze b t2 (analyze a t1 s).2).1,
         samePattern :=
           decide ((analyze a t1 s).1.pattern = (analyze b t2 (analyze a t1 s).2).1.pattern),
         similarity :=
           calculateSimilarity (analyze a t1 s).1 (analyze b t2 (analyze a t1 s).2).1 },
       (analyze b t2 (analyze a t1 s).2).2) := rfl

/-- `calculateSimilarity` only reads `pattern`, `commonDifference` and
`commonRatio`. -/
lemma calculateSimilarity_congr {r1 r2 r1' r2' : AnalysisResult}
    (hp1 : r1.pattern = r1'.pattern)
    (hd1 : r1.commonDifference = r1'.commonDifference)
    (hq1 : r1.commonRatio = r1'.commonRatio)
    (hp2 : r2.pattern = r2'.pattern)
    (hd2 : r2.commonDifference = r2'.commonDifference)
    (hq2 : r2.commonRatio = r2'.commonRatio) :
    calculateSimilarity r1 r2 = calculateSimilarity r1' r2' := by
  unfold calculateSimilarity
  rw [hp1, hd1, hq1, hp2, hd2, hq2]

/-- `calculateSimilarity` is symmetric: pattern equality, exact
`commonDifference` equality and the `|Δratio| < 0.01` test are all
symmetric in their two arguments. -/
lemma calculateSimilarity_comm (r1 r2 : AnalysisResult) :
    calculateSimilarity r1 r2 = calculateSimilarity r2 r1 := by
  unfold calculateSimilarity
  by_cases hp : r1.pattern = r2.pattern
  · rw [if_neg (by simp [hp]), if_neg (by simp [hp])]
    have hcd : (match r1.commonDifference, r2.commonDifference with
        | some d1, some d2 => if d1 = d2 then 25 else 0
        | _, _ => 0) =
        (match r2.commonDifference, r1.commonDifference with
        | some d1, some d2 => if d1 = d2 then 25 else 0
        | _, _ => 0) := by
      cases r1.commonDifference <;> cases r2.commonDifference <;> simp [eq_comm]
    have hcr : (match r1.commonRatio, r2.commonRatio with
        | some q1, some q2 => if |q1 - q2| < 1 / 100 then 25 else 0
        | _, _ => 0) =
        (match r2.commonRatio, r1.commonRatio with
        | some q1, some q2 => if |q1 - q2| < 1 / 100 then 25 else 0
        | _, _ => 0) := by
      cases r1.commonRatio <;> cases r2.commonRatio <;> simp [abs_sub_comm]
    rw [hcd, hcr]
  · rw [if_pos hp, if_pos (Ne.symm hp)]

/-- The fields `calculateSimilarity` and `samePattern` read are a
function of the input and of the cache lookup of that input alone — in
particular they do not depend on the measured duration. -/
lemma analyze_result_fields (inp : JSInput) (t t' : ℚ) (s s' : EngineState)
    (h : cacheLookup inp s.cache = cacheLookup inp s'.cache) :
    (analyze inp t s).1.pattern = (analyze inp t' s').1.pattern ∧
    (analyze inp t s).1.commonDifference = (analyze inp t' s').1.commonDifference ∧
    (analyze inp t s).1.commonRatio = (analyze inp t' s').1.commonRatio := by
  cases hl : cacheLookup inp s.cache with
  | some r =>
    rw [analyze_hit_eq hl, analyze_hit_eq (h.symm.trans hl)]
    exact ⟨rfl, rfl, rfl⟩
  | none =>
    have hl' : cacheLookup inp s'.cache = none := h.symm.trans hl
    cases hv : validateSequence inp with
    | some msg =>
      rw [analyze_invalid_eq hl hv, analyze_invalid_eq hl' hv]
      exact ⟨rfl, rfl, rfl⟩
    | none =>
      rw [analyze_fresh_eq hl hv, analyze_fresh_eq hl' hv]
      exact ⟨rfl, rfl, rfl⟩

/-- A lookup of a different key is unaffected by appending one entry. -/
lemma cacheLookup_append_ne {k k' : JSInput} (hne : k ≠ k')
    (c : List (JSInput × AnalysisResult)) (r : AnalysisResult) :
    cacheLookup k (c ++ [(k', r)]) = cacheLookup k c := by
  rw [cacheLookup_append]
  cases hl : cacheLookup k c with
  | some x => rfl
  | none => simp [cacheLookup, hne]

/-- `analyze` changes the cache only at its own key. -/
lemma analyze_cacheLookup_ne {inp k : JSInput} (hne : k ≠ inp) (t : ℚ)
    (s : EngineState) :
    cacheLookup k ((analyze inp t s).2).cache = cacheLookup k s.cache := by
  cases hl : cacheLookup inp s.cache with
  | some r => rw [analyze_hit_eq hl]
  | none =>
    cases hv : validateSequence inp with
    | some msg => rw [analyze_invalid_eq hl hv]
    | none =>
      rw [analyze_fresh_eq hl hv]
      exact cacheLookup_append_ne hne _ _

/-- `decide` of a symmetric equality. -/
lemma decide_eq_comm {α : Type} [DecidableEq α] (x y : α) :
    decide (x = y) = decide (y = x) := by
  by_cases h : x = y
  · simp [h]
  · simp [h, Ne.symm h]

end SequenceAnalyzer

/-- C6: comparison is order-independent.  For every engine state and
pair of inputs, swapping the arguments of `comparSequences` leaves both
`samePattern` and the similarity score unchanged: the relevant result
fields depend only on the input and its cache entry (not on the call
order or measured durations), pattern equality is symmetric, and each
similarity bonus test is symmetric. -/
theorem c6_compare_symmetric (s : EngineState) (a b : JSInput) (t1 t2 : ℚ) :
    (comparSequences a b t1 t2 s).1.samePattern =
      (comparSequences b a t1 t2 s).1.samePattern ∧
    (comparSequences a b t1 t2 s).1.similarity =
      (comparSequences b a t1 t2 s).1.similarity := by
  by_cases hab : a = b
  · subst hab
    exact ⟨rfl, rfl⟩
  · rw [comparSequences_eq, comparSequences_eq]
    have hla : cacheLookup a ((analyze b t1 s).2).cache = cacheLookup a s.cache :=
      analyze_cacheLookup_ne hab t1 s
    have hlb : cacheLookup b ((analyze a t1 s).2).cache = cacheLookup b s.cache :=
      analyze_cacheLookup_ne (fun h => hab h.symm) t1 s
    have hA := analyze_result_fields a t1 t2 s ((analyze b t1 s).2) hla.symm
    have hB := analyze_result_fields b t2 t1 ((analyze a t1 s).2) s hlb
    constructor
    · simp only
      rw [hA.1, hB.1]
      exact decide_eq_comm _ _
    · simp only
      rw [calculateSimilarity_congr hA.1 hA.2.1 hA.2.2 hB.1 hB.2.1 hB.2.2]
      exact calculateSimilarity_comm _ _

namespace SequenceAnalyzer

/-- One public API call of the engine, as a relation on engine states
(`getHistory` and `getMetrics` do not change the state). -/
inductive EngineStep : EngineState → EngineState → Prop
  | callAnalyze (inp : JSInput) (t : ℚ) (s : EngineState) :
      EngineStep s (analyze inp t s).2
  | callCompare (a b : JSInput) (t1 t2 : ℚ) (s : EngineState) :
      EngineStep s (comparSequences a b t1 t2 s).2
  | callClear (s : EngineState) : EngineStep s (clear s)

/-- Engine states reachable from the constructor state through API
calls. -/
inductive Reachable : EngineState → Prop
  | init : Reachable initState
  | step {s s' : EngineState} : Reachable s → EngineStep s s' → Reachable s'

/-- One `analyze` call either leaves the history alone (cache hit or
failed validation) or appends exactly one successful result. -/
lemma analyze_history (inp : JSInput) (t : ℚ) (s : EngineState) :
    (analyze inp t s).2.history = s.history ∨
    ∃ r, (analyze inp t s).2.history = s.history ++ [r] ∧ r.success = true := by
  cases hl : cacheLookup inp s.cache with
  | some r => rw [analyze_hit_eq hl]; exact Or.inl rfl
  | none =>
    cases hv : validateSequence inp with
    | some msg => rw [analyze_invalid_eq hl hv]; exact Or.inl rfl
    | none =>
      rw [analyze_fresh_eq hl hv]
      exact Or.inr ⟨freshResult inp t, rfl, rfl⟩

/-- In every reachable state, every history entry has `success = true`. -/
lemma reachable_history_success {s : EngineState} (h : Reachable s) :
    ∀ r ∈ s.history, r.success = true := by
  induction h with
  | init => intro r hr; cases hr
  | @step s1 s2 hr hstep ih =>
    cases hstep with
    | callAnalyze inp t =>
      rcases analyze_history inp t s1 with he | ⟨r', he, hsucc⟩ <;> rw [he]
      · exact ih
      · intro r hr
        rcases List.mem_append.mp hr with hm | hm
        · exact ih r hm
        · rw [List.mem_singleton.mp hm]; exact hsucc
    | callCompare a b t1 t2 =>
      have hcmp : (comparSequences a b t1 t2 s1).2 = (analyze b t2 (analyze a t1 s1).2).2 := rfl
      rw [hcmp]
      have ih1 : ∀ r ∈ (analyze a t1 s1).2.history, r.success = true := by
        rcases analyze_history a t1 s1 with he | ⟨r', he, hsucc⟩ <;> rw [he]
        · exact ih
        · intro r hr
          rcases List.mem_append.mp hr with hm | hm
          · exact ih r hm
          · rw [List.mem_singleton.mp hm]; exact hsucc
      rcases analyze_history b t2 (analyze a t1 s1).2 with he | ⟨r', he, hsucc⟩ <;> rw [he]
      · exact ih1
      · intro r hr
        rcases List.mem_append.mp hr with hm | hm
        · exact ih1 r hm
        · rw [List.mem_singleton.mp hm]; exact hsucc
    | callClear => intro r hr; cases hr

end SequenceAnalyzer

/-- C8: in every reachable engine state, every history entry has
`success = true`; an `analyze` call never appends on a cache hit or a
failed validation and otherwise only appends successful results at the
end (entries are never mutated or removed — the old history is a prefix);
and the history is emptied by `clear`. -/
theorem c8_history_invariant (s : EngineState) (h : Reachable s) :
    (∀ r ∈ s.history, r.success = true) ∧
    (∀ inp t,
      ((∃ r', cacheLookup inp s.cache = some r') → (analyze inp t s).2.history = s.history) ∧
      (∀ msg, cacheLookup inp s.cache = none → validateSequence inp = some msg →
        (analyze inp t s).2.history = s.history) ∧
      (∃ tl, (analyze inp t s).2.history = s.history ++ tl ∧
        ∀ r ∈ tl, r.success = true)) ∧
    (SequenceAnalyzer.clear s).history = [] := by
  refine ⟨reachable_history_success h, ?_, rfl⟩
  intro inp t
  refine ⟨?_, ?_, ?_⟩
  · rintro ⟨r', hl⟩
    rw [analyze_hit_eq hl]
  · intro msg hl hv
    rw [analyze_invalid_eq hl hv]
  · rcases analyze_history inp t s with he | ⟨r', he, hsucc⟩
    · exact ⟨[], by rw [he, List.append_nil], fun r hr => (List.not_mem_nil r hr).elim⟩
    · refine ⟨[r'], he, ?_⟩
      intro r hr
      rw [List.mem_singleton.mp hr]
      exact hsucc

/-- C8 witness: the invariant at the state reached by one successful
`analyze([3,6,9,12])` call on a fresh engine. -/
theorem c8_history_invariant_witness :
    Reachable ((analyze (numsInput [3, 6, 9, 12]) 0 initState).2) ∧
    ((∀ r ∈ ((analyze (numsInput [3, 6, 9, 12]) 0 initState).2).history,
        r.success = true) ∧
     (∀ inp t,
       ((∃ r', cacheLookup inp ((analyze (numsInput [3, 6, 9, 12]) 0 initState).2).cache =
            some r') →
         (analyze inp t ((analyze (numsInput [3, 6, 9, 12]) 0 initState).2)).2.history =
           ((analyze (numsInput [3, 6, 9, 12]) 0 initState).2).history) ∧
       (∀ msg, cacheLookup inp ((analyze (numsInput [3, 6, 9, 12]) 0 initState).2).cache =
            none →
          validateSequence inp = some msg →
          (analyze inp t ((analyze (numsInput [3, 6, 9, 12]) 0 initState).2)).2.history =
            ((analyze (numsInput [3, 6, 9, 12]) 0 initState).2).history) ∧
       (∃ tl,
         (analyze inp t ((analyze (numsInput [3, 6, 9, 12]) 0 initState).2)).2.history =
           ((analyze (numsInput [3, 6, 9, 12]) 0 initState).2).history ++ tl ∧
         ∀ r ∈ tl, r.success = true)) ∧
     (SequenceAnalyzer.clear ((analyze (numsInput [3, 6, 9, 12]) 0 initState).2)).history =
       []) := by
  have hreach : Reachable ((analyze (numsInput [3, 6, 9, 12]) 0 initState).2) :=
    Reachable.step Reachable.init
      (EngineStep.callAnalyze (numsInput [3, 6, 9, 12]) 0 initState)
  exact ⟨hreach, c8_history_invariant _ hreach⟩
